import Mathlib

/-!
Verification of the QUBEKit `RDKit` facade module (`QUBEKit/engines/rdkit.py`).

The module's only non-trivial local logic is the symmetry-class derivation in
`RDKit.find_symmetry_classes`; everything else delegates to the external
cheminformatics toolkit.  We embed:

* the rank-bucketing classifier (lines 159-177 of the source), viewed as a
  function `classify` over the per-atom CIP-rank array, with the Python dict
  modelled as a function from atom index to optional label;
* the molecule-level wrapper `find_symmetry_classes`, with the external
  `Chem.AssignStereochemistry` call modelled from the spec (it caches the
  per-atom ranks as annotations on the molecule object);
* `add_conformer` over a molecule record carrying a conformer list;
* the parse dispatcher `mol_input_to_rdkit_mol`, `smiles_to_rdkit_mol` and
  `mm_optimise`, parameterised over an abstract toolkit record whose fields
  stand for the external toolkit entry points.

Python failure (a raised exception) is modelled as `Except.error` / `none`;
a Python function returning `None` inside a successful call is `Option.none`
inside `Except.ok`.
-/

/-! ### The symmetry classifier over the per-atom CIP-rank array -/

/-- Python built-in `max` over a sequence of integers; `max()` on an empty
sequence raises `ValueError`, modelled as `none`. -/
def pyMax : List Int → Option Int
  | [] => none
  | x :: xs => some (xs.foldl max x)

/-- `np.where(cip_ranks == rank)[0].tolist()`: the list of indices `i` with
`cip_ranks[i] == rank`, in ascending index order. -/
def npWhereEq (cip_ranks : List Int) (rank : Int) : List Nat :=
  (cip_ranks.enum.filter (fun p => p.2 = rank)).map Prod.fst

/-- Python `range(n)` for an integer upper bound (empty when `n ≤ 0`). -/
def pyRange (n : Int) : List Nat := List.range n.toNat

/-- The inner loop `for atom in sym_class: atom_symmetry_classes_dict[atom] = str(i)`:
assign `label` to every atom index of `sym_class` in the dict. -/
def assignClass (label : String) (dict : Nat → Option String) (sym_class : List Nat) :
    Nat → Option String :=
  sym_class.foldl (fun dict atom => fun k => if k = atom then some label else dict k) dict

/-- Lines 159-177 of `RDKit.find_symmetry_classes`, viewed as a classifier over
the per-atom CIP-rank array `cip_ranks`:

    atom_symmetry_classes = [np.where(cip_ranks == rank)[0].tolist()
                             for rank in range(max(cip_ranks) + 1)]
    atom_symmetry_classes_dict = {}
    for i, sym_class in enumerate(atom_symmetry_classes):
        for atom in sym_class:
            atom_symmetry_classes_dict[atom] = str(i)
    return atom_symmetry_classes_dict

`max` of an empty sequence raises, hence the `Option`.  The dict is modelled
as a function from atom index to optional label. -/
def classify (cip_ranks : List Int) : Option (Nat → Option String) :=
  match pyMax cip_ranks with
  | none => none
  | some maxRank =>
    let atom_symmetry_classes :=
      (pyRange (maxRank + 1)).map (fun (rank : Nat) => npWhereEq cip_ranks (rank : Int))
    some (atom_symmetry_classes.enum.foldl
      (fun dict p => assignClass (toString p.1) dict p.2) (fun _ => none))

/-! ### Basic lemmas about the classifier's pieces -/

theorem le_foldl_max_init (acc : Int) (xs : List Int) : acc ≤ xs.foldl max acc := by
  induction xs generalizing acc with
  | nil => exact le_refl acc
  | cons y ys ih => exact le_trans (le_max_left acc y) (ih (max acc y))

theorem le_foldl_max_mem (acc r : Int) (xs : List Int) (h : r ∈ xs) :
    r ≤ xs.foldl max acc := by
  induction xs generalizing acc with
  | nil => cases h
  | cons y ys ih =>
    rcases List.mem_cons.mp h with rfl | hmem
    · exact le_trans (le_max_right acc r) (le_foldl_max_init (max acc r) ys)
    · exact ih (max acc y) hmem

theorem pyMax_ge {R : List Int} {m : Int} (h : pyMax R = some m) :
    ∀ r ∈ R, r ≤ m := by
  match R with
  | [] => simp [pyMax] at h
  | x :: xs =>
    simp only [pyMax, Option.some.injEq] at h
    intro r hr
    subst h
    rcases List.mem_cons.mp hr with rfl | hmem
    · exact le_foldl_max_init r xs
    · exact le_foldl_max_mem x r xs hmem

theorem mem_npWhereEq {R : List Int} {rank : Int} {k : Nat} :
    k ∈ npWhereEq R rank ↔ ∃ hk : k < R.length, R.get ⟨k, hk⟩ = rank := by
  simp only [npWhereEq, List.mem_map, List.mem_filter, decide_eq_true_eq]
  constructor
  · rintro ⟨⟨i, v⟩, ⟨hmem, hv⟩, rfl⟩
    rw [List.mem_enum_iff_getElem?] at hmem
    have hlt : i < R.length := by
      by_contra hge
      rw [List.getElem?_eq_none (Nat.le_of_not_lt hge)] at hmem
      cases hmem
    refine ⟨hlt, ?_⟩
    rw [List.getElem?_eq_getElem hlt] at hmem
    have : R[i] = v := by injection hmem
    simpa [List.get_eq_getElem, this] using hv
  · rintro ⟨hk, hval⟩
    refine ⟨(k, rank), ⟨?_, rfl⟩, rfl⟩
    rw [List.mem_enum_iff_getElem?, List.getElem?_eq_getElem hk]
    simp [List.get_eq_getElem] at hval
    rw [hval]

theorem assignClass_apply (label : String) (dict : Nat → Option String)
    (cls : List Nat) (k : Nat) :
    assignClass label dict cls k = if k ∈ cls then some label else dict k := by
  induction cls generalizing dict with
  | nil => simp [assignClass]
  | cons a rest ih =>
    simp only [assignClass, List.foldl_cons] at ih ⊢
    rw [ih]
    by_cases hk : k ∈ rest
    · simp [hk]
    · by_cases hka : k = a <;> simp [hk, hka]

theorem enum_range_map {α : Type} (n : Nat) (f : Nat → α) :
    ((List.range n).map f).enum = (List.range n).map (fun r => (r, f r)) := by
  apply List.ext_getElem
  · simp
  · intro i h1 h2
    simp [List.getElem_enum]


/-- The dict built by `classify` when the rank range `range(max+1)` has `n`
elements: named form of the body of `classify` after `max` succeeded. -/
def classifyDict (R : List Int) (n : Nat) : Nat → Option String :=
  ((List.range n).map (fun (rank : Nat) => npWhereEq R (rank : Int))).enum.foldl
    (fun dict p => assignClass (toString p.1) dict p.2) (fun _ => none)

/-- On a non-empty rank array, `classify` succeeds and returns the dict built
over the rank range `0..max`. -/
theorem classify_cons (x : Int) (xs : List Int) :
    classify (x :: xs) = some (classifyDict (x :: xs) ((xs.foldl max x + 1).toNat)) := rfl

/-- The outer fold of `classify`, over the enumerated class list for the rank
range `0..n-1`, applied to atom index `k` (with `k` a valid atom index): the
dict maps `k` to the stringified value of its own rank exactly when that rank
is non-negative and below `n`. -/
theorem classifyFold_apply (R : List Int) (n : Nat) (dict : Nat → Option String)
    (k : Nat) (hk : k < R.length) :
    ((List.range n).map (fun (r : Nat) => (r, npWhereEq R (r : Int)))).foldl
        (fun dict p => assignClass (toString p.1) dict p.2) dict k =
      if 0 ≤ R.get ⟨k, hk⟩ ∧ R.get ⟨k, hk⟩ < (n : Int)
      then some (toString (R.get ⟨k, hk⟩).toNat) else dict k := by
  induction n with
  | zero =>
    rw [if_neg]
    · simp
    · rintro ⟨h1, h2⟩
      omega
  | succ n ih =>
    rw [List.range_succ, List.map_append, List.foldl_append]
    simp only [List.map_cons, List.map_nil, List.foldl_cons, List.foldl_nil]
    rw [assignClass_apply]
    by_cases hmem : k ∈ npWhereEq R ((n : Nat) : Int)
    · rw [if_pos hmem]
      obtain ⟨hk2, hval⟩ := mem_npWhereEq.mp hmem
      have hval : R.get ⟨k, hk⟩ = (n : Int) := hval
      rw [if_pos]
      · rw [hval, Int.toNat_natCast]
      · constructor
        · rw [hval]; exact Int.natCast_nonneg n
        · rw [hval]; exact_mod_cast Nat.lt_succ_self n
    · rw [if_neg hmem, ih]
      have hne : R.get ⟨k, hk⟩ ≠ (n : Int) := by
        intro h
        exact hmem (mem_npWhereEq.mpr ⟨hk, h⟩)
      by_cases hcond : 0 ≤ R.get ⟨k, hk⟩ ∧ R.get ⟨k, hk⟩ < (n : Int)
      · rw [if_pos hcond,
          if_pos ⟨hcond.1, lt_trans hcond.2 (by exact_mod_cast Nat.lt_succ_self n)⟩]
      · rw [if_neg hcond, if_neg]
        rintro ⟨h1, h2⟩
        apply hcond
        have h2a : R.get ⟨k, hk⟩ < (n : Int) + 1 := by exact_mod_cast h2
        have h3 : R.get ⟨k, hk⟩ < (n : Int) := by
          rcases lt_or_eq_of_le (Int.lt_add_one_iff.mp h2a) with h | h
          · exact h
          · exact absurd h hne
        exact ⟨h1, h3⟩

/-- The outer fold of `classify` never assigns a key that is not a valid atom
index. -/
theorem classifyFold_apply_ge (R : List Int) (n : Nat) (dict : Nat → Option String)
    (k : Nat) (hk : R.length ≤ k) :
    ((List.range n).map (fun (r : Nat) => (r, npWhereEq R (r : Int)))).foldl
        (fun dict p => assignClass (toString p.1) dict p.2) dict k = dict k := by
  induction n with
  | zero => simp
  | succ n ih =>
    rw [List.range_succ, List.map_append, List.foldl_append]
    simp only [List.map_cons, List.map_nil, List.foldl_cons, List.foldl_nil]
    rw [assignClass_apply, if_neg, ih]
    intro hmem
    obtain ⟨hk2, _⟩ := mem_npWhereEq.mp hmem
    omega

theorem classifyDict_apply (R : List Int) (n : Nat) (k : Nat) (hk : k < R.length) :
    classifyDict R n k =
      if 0 ≤ R.get ⟨k, hk⟩ ∧ R.get ⟨k, hk⟩ < (n : Int)
      then some (toString (R.get ⟨k, hk⟩).toNat) else none := by
  have h := classifyFold_apply R n (fun _ => none) k hk
  unfold classifyDict
  rw [enum_range_map]
  exact h

theorem classifyDict_apply_ge (R : List Int) (n : Nat) (k : Nat) (hk : R.length ≤ k) :
    classifyDict R n k = none := by
  have h := classifyFold_apply_ge R n (fun _ => none) k hk
  unfold classifyDict
  rw [enum_range_map]
  exact h

/-- Characterisation of `classify` on a non-empty rank array: it succeeds, and
the resulting dict maps each valid atom index with non-negative rank to the
stringified rank, maps valid atom indices with negative rank to nothing, and
holds no other key. -/
theorem classify_eq (R : List Int) (hne : R ≠ []) :
    ∃ d, classify R = some d ∧
      (∀ k (hk : k < R.length),
        d k = if 0 ≤ R.get ⟨k, hk⟩ then some (toString (R.get ⟨k, hk⟩).toNat) else none) ∧
      (∀ k, R.length ≤ k → d k = none) := by
  match R, hne with
  | x :: xs, _ =>
    have hmax : pyMax (x :: xs) = some (xs.foldl max x) := rfl
    refine ⟨classifyDict (x :: xs) ((xs.foldl max x + 1).toNat), classify_cons x xs, ?_, ?_⟩
    · intro k hk
      rw [classifyDict_apply (x :: xs) _ k hk]
      by_cases hv : 0 ≤ (x :: xs).get ⟨k, hk⟩
      · rw [if_pos hv, if_pos]
        refine ⟨hv, ?_⟩
        have hle : (x :: xs).get ⟨k, hk⟩ ≤ xs.foldl max x :=
          pyMax_ge hmax _ (List.get_mem (x :: xs) k hk)
        have hm0 : (0 : Int) ≤ xs.foldl max x := le_trans hv hle
        have hcast : (((xs.foldl max x + 1).toNat : Nat) : Int) = xs.foldl max x + 1 :=
          Int.toNat_of_nonneg (by omega)
        rw [hcast]
        omega
      · rw [if_neg hv, if_neg]
        rintro ⟨h1, _⟩
        exact hv h1
    · intro k hk
      exact classifyDict_apply_ge (x :: xs) _ k hk

/-! ### Injectivity of the decimal string representation of `Nat`

Python's `str(i)` on a non-negative integer corresponds to `toString (i : Nat)`,
which is `Nat.repr`.  The label comparisons of the classifier need that this
representation is injective; we prove it by exhibiting a left inverse that
decodes the digit list. -/

/-- Decode one decimal digit character. -/
def decodeDigit (c : Char) : Nat := c.toNat - 48

/-- Decode a most-significant-first digit list, continuing from `acc`. -/
def decodeFrom (acc : Nat) (l : List Char) : Nat :=
  l.foldl (fun a c => 10 * a + decodeDigit c) acc

theorem decodeFrom_append (acc : Nat) (l1 l2 : List Char) :
    decodeFrom acc (l1 ++ l2) = decodeFrom (decodeFrom acc l1) l2 := by
  simp [decodeFrom, List.foldl_append]

theorem decodeDigit_digitChar (m : Nat) (h : m < 10) :
    decodeDigit (Nat.digitChar m) = m := by
  interval_cases m <;> rfl

/-- `Nat.toDigitsCore` prepends the produced digits to its accumulator list. -/
theorem toDigitsCore_append (fuel n : Nat) (ds : List Char) :
    Nat.toDigitsCore 10 fuel n ds = Nat.toDigitsCore 10 fuel n [] ++ ds := by
  induction fuel generalizing n ds with
  | zero => simp [Nat.toDigitsCore]
  | succ fuel ih =>
    simp only [Nat.toDigitsCore]
    by_cases h : n / 10 = 0
    · simp [h]
    · rw [if_neg h, if_neg h, ih (n / 10) (Nat.digitChar (n % 10) :: ds),
        ih (n / 10) [Nat.digitChar (n % 10)]]
      simp

/-- Decoding is a left inverse of `Nat.toDigitsCore` at base 10, given enough
fuel. -/
theorem decodeFrom_toDigitsCore (fuel : Nat) :
    ∀ n, n < fuel → decodeFrom 0 (Nat.toDigitsCore 10 fuel n []) = n := by
  induction fuel with
  | zero => intro n h; omega
  | succ fuel ih =>
    intro n h
    simp only [Nat.toDigitsCore]
    by_cases h0 : n / 10 = 0
    · rw [if_pos h0]
      have hlt : n % 10 < 10 := Nat.mod_lt _ (by omega)
      have hdec := decodeDigit_digitChar (n % 10) hlt
      simp only [decodeFrom, List.foldl_cons, List.foldl_nil]
      omega
    · rw [if_neg h0, toDigitsCore_append, decodeFrom_append]
      have h1 : n / 10 < fuel := by omega
      rw [ih (n / 10) h1]
      have hlt : n % 10 < 10 := Nat.mod_lt _ (by omega)
      have hdec := decodeDigit_digitChar (n % 10) hlt
      simp only [decodeFrom, List.foldl_cons, List.foldl_nil]
      omega

theorem decodeFrom_toDigits (n : Nat) : decodeFrom 0 (Nat.toDigits 10 n) = n :=
  decodeFrom_toDigitsCore (n + 1) n (Nat.lt_succ_self n)

theorem natRepr_injective {m n : Nat} (h : Nat.repr m = Nat.repr n) : m = n := by
  have hd : Nat.toDigits 10 m = Nat.toDigits 10 n := by
    have := congrArg String.data h
    simpa [Nat.repr, List.asString] using this
  calc m = decodeFrom 0 (Nat.toDigits 10 m) := (decodeFrom_toDigits m).symm
    _ = decodeFrom 0 (Nat.toDigits 10 n) := by rw [hd]
    _ = n := decodeFrom_toDigits n

theorem natToString_injective {m n : Nat} (h : toString m = toString n) : m = n :=
  natRepr_injective (m := m) (n := n) h

/-! ### Claim theorems about the symmetry classifier -/

/-- C1: for every rank array satisfying the precondition (length ≥ 1, all
values non-negative) and all atom indices `i, j`, the classifier assigns `i`
and `j` the same class label iff `R[i] = R[j]`. -/
theorem classify_same_label_iff_same_rank (R : List Int) (hne : R ≠ [])
    (hnn : ∀ r ∈ R, 0 ≤ r) :
    ∃ d, classify R = some d ∧
      ∀ i j (hi : i < R.length) (hj : j < R.length),
        (d i = d j ↔ R.get ⟨i, hi⟩ = R.get ⟨j, hj⟩) := by
  obtain ⟨d, hd, hval, _⟩ := classify_eq R hne
  refine ⟨d, hd, ?_⟩
  intro i j hi hj
  have hvi := hnn _ (List.get_mem R i hi)
  have hvj := hnn _ (List.get_mem R j hj)
  rw [hval i hi, hval j hj, if_pos hvi, if_pos hvj]
  constructor
  · intro h
    have h1 : toString (R.get ⟨i, hi⟩).toNat = toString (R.get ⟨j, hj⟩).toNat := by
      injection h
    have h2 := natToString_injective h1
    rw [← Int.toNat_of_nonneg hvi, ← Int.toNat_of_nonneg hvj, h2]
  · intro h
    rw [h]

/-- Witness for C1 at the concrete rank array `R = [0, 1, 0]`. -/
theorem classify_same_label_iff_same_rank_witness :
    ∃ d, classify [0, 1, 0] = some d ∧
      ∀ i j (hi : i < List.length [(0 : Int), 1, 0]) (hj : j < List.length [(0 : Int), 1, 0]),
        (d i = d j ↔ List.get [(0 : Int), 1, 0] ⟨i, hi⟩ = List.get [(0 : Int), 1, 0] ⟨j, hj⟩) :=
  classify_same_label_iff_same_rank [0, 1, 0] (by decide) (by decide)

/-- C2 counterexample: on `R = [5, 5, 5]` the single shared label is `"5"`
(the raw rank value), not the dense positional label `"0"` that the claim
asserts; the `enumerate` index coincides with the raw rank because empty
buckets are not skipped. -/
theorem classify_label_not_positional :
    (classify [5, 5, 5]).map (fun d => d 0) = some (some "5") ∧ ("5" : String) ≠ "0" :=
  ⟨rfl, by decide⟩

/-- C2 amended: for every rank array meeting the precondition, each atom's
label is the stringified raw rank value of that atom (the bucket's index among
all ranks `0..max`, empty buckets included), not its position among the
non-empty buckets; sparse rank ranges are handled without error. -/
theorem classify_label_is_stringified_rank (R : List Int) (hne : R ≠ [])
    (hnn : ∀ r ∈ R, 0 ≤ r) :
    ∃ d, classify R = some d ∧
      ∀ k (hk : k < R.length), d k = some (toString (R.get ⟨k, hk⟩).toNat) := by
  obtain ⟨d, hd, hval, _⟩ := classify_eq R hne
  exact ⟨d, hd, fun k hk => by rw [hval k hk, if_pos (hnn _ (List.get_mem R k hk))]⟩

/-- Witness for the amended C2 at `R = [5, 5, 5]` (all equal, sparse range
`0..4` empty): the call succeeds and labels every atom with the raw rank. -/
theorem classify_label_is_stringified_rank_witness :
    ∃ d, classify [5, 5, 5] = some d ∧
      ∀ k (hk : k < List.length [(5 : Int), 5, 5]),
        d k = some (toString (List.get [(5 : Int), 5, 5] ⟨k, hk⟩).toNat) :=
  classify_label_is_stringified_rank [5, 5, 5] (by decide) (by decide)

/-- C3: for every rank array of length `N ≥ 1` with all values non-negative,
the classifier returns a mapping whose key set is exactly `{0, …, N-1}`. -/
theorem classify_keys_exactly_atom_indices (R : List Int) (hne : R ≠ [])
    (hnn : ∀ r ∈ R, 0 ≤ r) :
    ∃ d, classify R = some d ∧ ∀ k, (d k).isSome ↔ k < R.length := by
  obtain ⟨d, hd, hval, hout⟩ := classify_eq R hne
  refine ⟨d, hd, ?_⟩
  intro k
  constructor
  · intro h
    by_contra hge
    rw [hout k (Nat.le_of_not_lt hge)] at h
    simp at h
  · intro hk
    rw [hval k hk, if_pos (hnn _ (List.get_mem R k hk))]
    rfl

/-- Witness for C3 at the concrete rank array `R = [2, 2, 7]`. -/
theorem classify_keys_exactly_atom_indices_witness :
    ∃ d, classify [2, 2, 7] = some d ∧ ∀ k, (d k).isSome ↔ k < List.length [(2 : Int), 2, 7] :=
  classify_keys_exactly_atom_indices [2, 2, 7] (by decide) (by decide)

/-- C5 counterexample: `classify` does not raise on a rank array containing a
negative value; the call on `[-1]` succeeds (result is `some _`, no failure)
and atom index `0` is silently missing from the returned mapping. -/
theorem classify_no_error_on_negative :
    (classify [-1]).isSome = true ∧ (classify [-1]).map (fun d => d 0) = some none :=
  ⟨rfl, rfl⟩

/-- C5 amended: the classifier fails exactly on the empty rank array (Python
`max()` of an empty sequence raises); on any non-empty array it succeeds even
when values are negative, in which case each negative-ranked atom is silently
missing from the output instead of an input error being raised. -/
theorem classify_failure_modes (R : List Int) (hne : R ≠ []) :
    classify [] = none ∧
    (classify R).isSome ∧
    ∀ d, classify R = some d →
      ∀ k (hk : k < R.length), R.get ⟨k, hk⟩ < 0 → d k = none := by
  obtain ⟨d, hd, hval, _⟩ := classify_eq R hne
  refine ⟨rfl, by rw [hd]; rfl, ?_⟩
  intro d2 hd2 k hk hneg
  rw [hd] at hd2
  have heq : d = d2 := by injection hd2
  subst heq
  rw [hval k hk, if_neg (not_le.mpr hneg)]

/-- Witness for the amended C5 at the concrete rank array `R = [-2, 0]`. -/
theorem classify_failure_modes_witness :
    classify [] = none ∧
    (classify [-2, 0]).isSome ∧
    ∀ d, classify [-2, 0] = some d →
      ∀ k (hk : k < List.length [(-2 : Int), 0]),
        List.get [(-2 : Int), 0] ⟨k, hk⟩ < 0 → d k = none :=
  classify_failure_modes [-2, 0] (by decide)

/-- C9: classification is deterministic and idempotent: two calls of the
classifier on identical rank arrays yield identical mappings (the same label
for every atom index), and on arrays meeting the precondition both calls
succeed. -/
theorem classify_deterministic (R1 R2 : List Int) (heq : R1 = R2) (hne : R1 ≠ []) :
    ∃ d1 d2, classify R1 = some d1 ∧ classify R2 = some d2 ∧ ∀ k, d1 k = d2 k := by
  subst heq
  obtain ⟨d, hd, _, _⟩ := classify_eq R1 hne
  exact ⟨d, d, hd, hd, fun _ => rfl⟩

/-- Witness for C9 at the concrete rank array `R = [0, 1, 0]` given twice. -/
theorem classify_deterministic_witness :
    ∃ d1 d2, classify [0, 1, 0] = some d1 ∧ classify [(0 : Int), 1, 0] = some d2 ∧
      ∀ k, d1 k = d2 k :=
  classify_deterministic [0, 1, 0] [0, 1, 0] rfl (by decide)

/-! ### The molecule handle, `find_symmetry_classes` at molecule level, and
`add_conformer` -/

/-- An RDKit molecule handle, as far as this module observes it: the atom
count, the optional `_CIPRank` per-atom annotations (present for all atoms or
for none, as the source comment assumes), and the conformer list, each
conformer an ordered coordinate sequence.  Coordinate values are opaque
(`α`). -/
structure RDMol (α : Type) where
  natoms : Nat
  cipRanks : Option (List Int)
  conformers : List (List (α × α × α))
  deriving DecidableEq

/-- Modelled from the spec: `Chem.AssignStereochemistry(mol, cleanIt=True,
force=True, flagPossibleStereoCenters=True)` is external toolkit code not in
`src/`; per the spec the canonical per-atom rank array is "computed once and
cached by the toolkit on the molecule object", so the call computes the ranks
(by an abstract toolkit ranking procedure `rankOf`) and writes them onto the
molecule's annotations. -/
def chemAssignStereochemistry {α : Type} (rankOf : RDMol α → List Int)
    (mol : RDMol α) : RDMol α :=
  { mol with cipRanks := some (rankOf mol) }

/-- `RDKit.find_symmetry_classes` at molecule level (lines 153-177): if the
first atom lacks the `_CIPRank` property (modelled molecule-wide, as the
source comment assumes the property present for all atoms once present for
one), stereochemistry is assigned first — which updates the molecule; the
per-atom ranks are then read back and classified.  The pair returns the
(possibly updated) molecule alongside the classifier's result. -/
def find_symmetry_classes {α : Type} (rankOf : RDMol α → List Int)
    (rdkit_mol : RDMol α) : RDMol α × Option (Nat → Option String) :=
  let rdkit_mol :=
    if rdkit_mol.cipRanks.isSome then rdkit_mol
    else chemAssignStereochemistry rankOf rdkit_mol
  let cip_ranks := rdkit_mol.cipRanks.getD []
  (rdkit_mol, classify cip_ranks)

/-- C4 counterexample: on a molecule whose `_CIPRank` annotation is absent,
`find_symmetry_classes` returns a molecule whose annotations changed (the CIP
ranks were computed and cached on it by the stereochemistry assignment), so
it does not leave every input molecule unchanged. -/
theorem find_symmetry_classes_mutates_molecule :
    (find_symmetry_classes (fun _ => [0]) (⟨1, none, []⟩ : RDMol Int)).1 ≠
      (⟨1, none, []⟩ : RDMol Int) := by
  decide

/-- C4 amended: `find_symmetry_classes` has no side effect on the molecule
exactly when the `_CIPRank` annotation is already present: in that case the
molecule comes back unchanged and the result is a pure function of the cached
ranks; when the annotation is absent, the CIP ranks are first computed and
cached on the molecule (its one side effect). -/
theorem find_symmetry_classes_pure_when_annotated {α : Type}
    (rankOf : RDMol α → List Int) (mol : RDMol α) (h : mol.cipRanks.isSome) :
    (find_symmetry_classes rankOf mol).1 = mol ∧
    (find_symmetry_classes rankOf mol).2 = classify (mol.cipRanks.getD []) := by
  simp [find_symmetry_classes, h]

/-- Witness for the amended C4 at a concrete annotated molecule. -/
theorem find_symmetry_classes_pure_when_annotated_witness :
    (find_symmetry_classes (fun _ => ([] : List Int)) (⟨1, some [0], []⟩ : RDMol Int)).1 =
      (⟨1, some [0], []⟩ : RDMol Int) ∧
    (find_symmetry_classes (fun _ => ([] : List Int)) (⟨1, some [0], []⟩ : RDMol Int)).2 =
      classify ((⟨1, some [0], []⟩ : RDMol Int).cipRanks.getD []) :=
  find_symmetry_classes_pure_when_annotated _ _ (by decide)

/-- Modelled from the spec: the toolkit conformer object (`Chem.Conformer()`
and `conformer.SetAtomPosition(i, Point3D(*coord))`, external code not in
`src/`).  Per the spec a conformer is "an ordered sequence of N 3-D
coordinates, indexed 0..N-1 matching atom order": setting position `i`
overwrites an existing slot, and setting the position one past the end
extends the sequence. -/
def setAtomPosition {α : Type} (conf : List (α × α × α)) (i : Nat)
    (pos : α × α × α) : List (α × α × α) :=
  if i < conf.length then conf.set i pos else conf ++ [pos]

/-- `RDKit.add_conformer` (lines 191-206): build a conformer by setting
position `i` for each `(i, coord)` of `enumerate(conformer_coordinates)`,
append it to the molecule with a fresh conformer id
(`AddConformer(conformer, assignId=True)`, whose returned id the source
discards), and return the molecule object itself.  Since a Python function
could return either the molecule or an index, the result lives in a sum type;
the source's `return rdkit_mol` is the left injection. -/
def add_conformer {α : Type} (rdkit_mol : RDMol α)
    (conformer_coordinates : List (α × α × α)) : RDMol α ⊕ Nat :=
  let conformer := conformer_coordinates.enum.foldl
    (fun conf p => setAtomPosition conf p.1 p.2) []
  Sum.inl { rdkit_mol with conformers := rdkit_mol.conformers ++ [conformer] }

theorem setAtomPosition_foldl_from {α : Type} (coords : List (α × α × α)) :
    ∀ conf : List (α × α × α),
      (coords.enumFrom conf.length).foldl (fun c p => setAtomPosition c p.1 p.2) conf =
        conf ++ coords := by
  induction coords with
  | nil => intro conf; simp
  | cons x xs ih =>
    intro conf
    rw [List.enumFrom_cons, List.foldl_cons]
    have hset : setAtomPosition conf conf.length x = conf ++ [x] := by
      rw [setAtomPosition, if_neg (lt_irrefl _)]
    rw [hset]
    have hthis := ih (conf ++ [x])
    have hlen : (conf ++ [x]).length = conf.length + 1 := by simp
    rw [hlen] at hthis
    rw [hthis, List.append_assoc]
    rfl

/-- The successive `SetAtomPosition(i, …)` calls over the enumerated
coordinates build exactly the coordinate list. -/
theorem enum_foldl_setAtomPosition {α : Type} (coords : List (α × α × α)) :
    coords.enum.foldl (fun c p => setAtomPosition c p.1 p.2) [] = coords := by
  have h := setAtomPosition_foldl_from coords []
  simpa using h

/-- C6 counterexample: `add_conformer` does not return the new conformer's
index — for a fresh 1-atom molecule with no conformers the claimed return
value would be the index `0`, but the call returns the molecule object (a
left injection, not an index). -/
theorem add_conformer_not_return_index :
    add_conformer (⟨1, none, []⟩ : RDMol Int) [(0, 0, 0)] ≠ Sum.inr 0 ∧
    (add_conformer (⟨1, none, []⟩ : RDMol Int) [(0, 0, 0)]).isLeft = true := by
  exact ⟨by decide, rfl⟩

/-- C6 amended: for every molecule and coordinate sequence with exactly one
coordinate per atom in atom-index order, `add_conformer` appends the
coordinates as a new conformer at the end of the molecule's conformer list
and returns the updated molecule itself (not the new conformer's index). -/
theorem add_conformer_appends_and_returns_molecule {α : Type} (mol : RDMol α)
    (coords : List (α × α × α)) (hlen : coords.length = mol.natoms) :
    add_conformer mol coords =
      Sum.inl { mol with conformers := mol.conformers ++ [coords] } := by
  simp only [add_conformer]
  rw [enum_foldl_setAtomPosition]

/-- Witness for the amended C6: appending the two-point conformer
`[(0,0,0), (1,0,0)]` to a 2-atom molecule. -/
theorem add_conformer_appends_and_returns_molecule_witness :
    add_conformer (⟨2, none, []⟩ : RDMol Int) [(0, 0, 0), (1, 0, 0)] =
      Sum.inl (⟨2, none, [[(0, 0, 0), (1, 0, 0)]]⟩ : RDMol Int) :=
  add_conformer_appends_and_returns_molecule (⟨2, none, []⟩ : RDMol Int)
    [(0, 0, 0), (1, 0, 0)] (by decide)

/-! ### The parse dispatcher, SMILES conversion and `mm_optimise` -/

/-- A `pathlib.Path` as observed by this module: its `suffix` (the file
extension), `name` and `stem`. -/
structure PyPath where
  suffix : String
  name : String
  stem : String

/-- The argument of `mol_input_to_rdkit_mol`: either a Python `str` (treated
as a SMILES string) or a `pathlib.Path`. -/
inductive MolInput where
  | str (s : String)
  | path (p : PyPath)

/-- Modelled from the spec: the external toolkit entry points used by the
parse and optimise paths (their code is not in `src/`; the spec documents
only the interface, "Molecule handle (or failure)").  Parsers return an
optional molecule (`None` on failure); in-place mutators are modelled as
functions returning the updated molecule; `input` is the interactive terminal
prompt. -/
structure Toolkit (μ : Type) where
  MolFromSmiles : String → Option μ
  SetProp : μ → String → String → μ
  AddHs : μ → μ
  EmbedMolecule : μ → μ
  SanitizeMol : μ → μ
  MolFromPDBFile : String → Option μ
  MolFromMol2File : String → Option μ
  MolFromMolFile : String → Option μ
  MMFFOptimizeMolecule : μ → μ
  UFFOptimizeMolecule : μ → μ
  MolToPDBFile : μ → String → Unit
  input : String → String

/-- `RDKit.smiles_to_rdkit_mol` (lines 35-52): convert a SMILES string,
prompting interactively for a name when none is supplied; when
`MolFromSmiles` fails (returns `None`), the subsequent `mol.SetProp` raises
an `AttributeError`, modelled as an error result. -/
def smiles_to_rdkit_mol {μ : Type} (tk : Toolkit μ) (smiles_string : String)
    (name : Option String) : Except String μ :=
  match tk.MolFromSmiles smiles_string with
  | none => .error "AttributeError"
  | some mol =>
    let name := name.getD (tk.input "Please enter a name for the molecule:\n>")
    let mol := tk.SetProp mol "_Name" name
    let mol_hydrogens := tk.AddHs mol
    let mol_hydrogens := tk.SanitizeMol (tk.EmbedMolecule mol_hydrogens)
    .ok mol_hydrogens

/-- `RDKit.mol_input_to_rdkit_mol` (lines 13-33): dispatch on the Python type
first — a `str` is always interpreted as a SMILES string — and only then on
the file suffix; a path with an unrecognised suffix yields `None`
(`.ok none`), not a raised fault. -/
def mol_input_to_rdkit_mol {μ : Type} (tk : Toolkit μ) (mol_input : MolInput)
    (name : Option String) : Except String (Option μ) :=
  match mol_input with
  | .str s => (smiles_to_rdkit_mol tk s name).map some
  | .path p =>
    if p.suffix = ".pdb" then .ok (tk.MolFromPDBFile p.name)
    else if p.suffix = ".mol2" then .ok (tk.MolFromMol2File p.name)
    else if p.suffix = ".mol" then .ok (tk.MolFromMolFile p.name)
    else .ok none

/-- `RDKit.mm_optimise` (lines 54-70): parse the input file, look the force
field selector up in the two-entry dict literal
(`{"MMF": MMFFOptimizeMolecule, "UFF": UFFOptimizeMolecule}[ff]` — a missing
key raises `KeyError` before any optimiser runs), optimise in place (calling
the optimiser on a `None` molecule raises), write the optimised pdb file and
return its name. -/
def mm_optimise {μ : Type} (tk : Toolkit μ) (filename : PyPath) (ff : String) :
    Except String String :=
  match mol_input_to_rdkit_mol tk (.path filename) none with
  | .error e => .error e
  | .ok mol =>
    match List.lookup ff
        [("MMF", tk.MMFFOptimizeMolecule), ("UFF", tk.UFFOptimizeMolecule)] with
    | none => .error "KeyError"
    | some optimise =>
      match mol with
      | none => .error "ArgumentError"
      | some m =>
        let m := optimise m
        let _ := tk.MolToPDBFile m (filename.stem ++ "_rdkit_optimised.pdb")
        .ok (filename.stem ++ "_rdkit_optimised.pdb")

/-- A trivial concrete toolkit over the unit molecule type, used to
instantiate the dispatcher theorems at concrete inputs. -/
def unitToolkit : Toolkit Unit where
  MolFromSmiles _ := some ()
  SetProp m _ _ := m
  AddHs m := m
  EmbedMolecule m := m
  SanitizeMol m := m
  MolFromPDBFile _ := some ()
  MolFromMol2File _ := some ()
  MolFromMolFile _ := some ()
  MMFFOptimizeMolecule m := m
  UFFOptimizeMolecule m := m
  MolToPDBFile _ _ := ()
  input _ := "mol"

/-- A toolkit agreeing with `unitToolkit` on the SMILES path but with
entirely different (always-failing) file parsers. -/
def unitToolkitNoFiles : Toolkit Unit :=
  { unitToolkit with
    MolFromPDBFile := fun _ => none
    MolFromMol2File := fun _ => none
    MolFromMolFile := fun _ => none }

/-- C7: for every path input whose file extension is not one of `.pdb`,
`.mol2`, `.mol`, the parse dispatcher yields no result (an absent value
inside a successful return) rather than raising a fault, while string inputs
are dispatched to the SMILES path. -/
theorem mol_input_unsupported_format_yields_none {μ : Type} (tk : Toolkit μ)
    (p : PyPath) (name : Option String)
    (h1 : p.suffix ≠ ".pdb") (h2 : p.suffix ≠ ".mol2") (h3 : p.suffix ≠ ".mol") :
    mol_input_to_rdkit_mol tk (.path p) name = .ok none ∧
    ∀ s, mol_input_to_rdkit_mol tk (.str s) name =
      (smiles_to_rdkit_mol tk s name).map some := by
  constructor
  · simp only [mol_input_to_rdkit_mol]
    rw [if_neg h1, if_neg h2, if_neg h3]
  · intro s
    rfl

/-- Witness for C7 at the unsupported extension `.xyz`. -/
theorem mol_input_unsupported_format_yields_none_witness :
    mol_input_to_rdkit_mol unitToolkit (.path ⟨".xyz", "m.xyz", "m"⟩) none = .ok none ∧
    ∀ s, mol_input_to_rdkit_mol unitToolkit (.str s) none =
      (smiles_to_rdkit_mol unitToolkit s none).map some :=
  mol_input_unsupported_format_yields_none unitToolkit ⟨".xyz", "m.xyz", "m"⟩ none
    (by decide) (by decide) (by decide)

/-- C10: dispatch is by Python type before file extension — every string
input, whatever its shape (including strings ending in `".pdb"`, `".mol2"`
or `".mol"`), is routed to the SMILES converter, and the result does not
depend on any of the three file parsers: two toolkits agreeing on the
SMILES-path entry points give the same result on any string input even when
their file parsers differ arbitrarily. -/
theorem mol_input_str_always_smiles {μ : Type} (tk tkF : Toolkit μ) (s : String)
    (name : Option String)
    (hsm : tk.MolFromSmiles = tkF.MolFromSmiles) (hsp : tk.SetProp = tkF.SetProp)
    (hah : tk.AddHs = tkF.AddHs) (hem : tk.EmbedMolecule = tkF.EmbedMolecule)
    (hsa : tk.SanitizeMol = tkF.SanitizeMol) (hin : tk.input = tkF.input) :
    mol_input_to_rdkit_mol tk (.str s) name =
      (smiles_to_rdkit_mol tkF s name).map some := by
  show (smiles_to_rdkit_mol tk s name).map some = _
  rw [smiles_to_rdkit_mol, smiles_to_rdkit_mol, hsm, hsp, hah, hem, hsa, hin]

/-- Witness for C10: the string `"CCO.pdb"` — ending in `".pdb"` — is
interpreted as SMILES, under a toolkit whose file parsers all fail. -/
theorem mol_input_str_always_smiles_witness :
    mol_input_to_rdkit_mol unitToolkitNoFiles (.str "CCO.pdb") none =
      (smiles_to_rdkit_mol unitToolkit "CCO.pdb" none).map some :=
  mol_input_str_always_smiles unitToolkitNoFiles unitToolkit "CCO.pdb" none
    rfl rfl rfl rfl rfl rfl

/-- C8: `mm_optimise` fails (with the dict-literal lookup's `KeyError`,
raised before any optimisation is performed) for every force-field selector
other than the two recognized keys `"MMF"` and `"UFF"`; hence a call can
succeed only with one of the two recognized keys. -/
theorem mm_optimise_invalid_selector {μ : Type} (tk : Toolkit μ)
    (filename : PyPath) (ff : String) (h1 : ff ≠ "MMF") (h2 : ff ≠ "UFF") :
    mm_optimise tk filename ff = .error "KeyError" := by
  obtain ⟨o, ho⟩ : ∃ o, mol_input_to_rdkit_mol tk (.path filename) none = .ok o := by
    simp only [mol_input_to_rdkit_mol]
    split_ifs <;> exact ⟨_, rfl⟩
  have hlookup : List.lookup ff
      [("MMF", tk.MMFFOptimizeMolecule), ("UFF", tk.UFFOptimizeMolecule)] = none := by
    have hb1 : (ff == "MMF") = false := beq_eq_false_iff_ne.mpr h1
    have hb2 : (ff == "UFF") = false := beq_eq_false_iff_ne.mpr h2
    simp [List.lookup, hb1, hb2]
  simp only [mm_optimise, ho, hlookup]

/-- Witness for C8: the unrecognized selector `"PM3"` fails. -/
theorem mm_optimise_invalid_selector_witness :
    mm_optimise unitToolkit ⟨".pdb", "mol.pdb", "mol"⟩ "PM3" = .error "KeyError" :=
  mm_optimise_invalid_selector unitToolkit ⟨".pdb", "mol.pdb", "mol"⟩ "PM3"
    (by decide) (by decide)
